import Mathlib

/-!
Verification of the mcp-goals persistence core (workspace registry and
per-workspace goal store) against its natural-language specification.

The TypeScript source is shallowly embedded:
* the filesystem fragments each component owns are explicit state
  (association lists of directory entries, a sum type for the state file),
* `fs/promises` calls become total functions on that state,
* thrown exceptions become `Except` errors; operations that mutate the
  manager return `Except err α × State`, where an error result carries the
  unchanged state (the source throws before any mutation in every
  modelled operation),
* `new Date().toISOString()` becomes an explicit `now : String` argument,
* `JSON.parse`/`JSON.stringify` of the two state files are modelled by
  storing the parsed value directly, with extra constructors for a file
  that is malformed (parse throws) or unreadable (read throws non-ENOENT).

Embedded sources: `GoalManager` (goals.ts, phase-3 variant: createGoal
with plan content, getPlan, updatePlan, getGoalDescription, setActiveGoal,
getActiveGoal; learnings operations from the phase-2 goals.ts file) and
`WorkspaceManager` (workspace.ts).
-/

set_option autoImplicit false

/-- Errors thrown by the embedded operations. `enoent`/`eacces`/`eisdir`
mirror Node `ErrnoException` codes; the remaining constructors mirror the
`throw new Error(...)` sites of the source. -/
inductive GMError where
  | notFound
  | alreadyExists
  | enoent
  | eacces
  | eisdir
  | parseError
  deriving DecidableEq, Repr

/-- A file on disk: readable with the given content, or present but
failing to read (e.g. a permission error). -/
inductive FileData where
  | readable (content : String)
  | unreadable
  deriving DecidableEq, Repr

/-- First entry of an association list with the given key, mirroring
filesystem name lookup inside one directory. -/
def findEntry {α : Type} (l : List (String × α)) (n : String) : Option α :=
  match l with
  | [] => none
  | (k, v) :: rest => if k = n then some v else findEntry rest n

/-- Replace the entry with the given key (first occurrence). -/
def updateEntry {α : Type} (l : List (String × α)) (k : String) (v : α) :
    List (String × α) :=
  match l with
  | [] => []
  | (k', v') :: rest =>
    if k' = k then (k, v) :: rest else (k', v') :: updateEntry rest k v

/-- `state.json` on disk: absent, present and parsing to a `GoalState`,
present but malformed (`JSON.parse` throws), or unreadable (read fails
with a non-ENOENT error). -/
inductive StateFile (σ : Type) where
  | absent
  | valid (st : σ)
  | malformed
  | unreadable
  deriving DecidableEq, Repr

/-- In-memory goal-store state, `interface GoalState` of goals.ts. -/
structure GoalState where
  active_goal : Option String
  last_updated : String
  deriving DecidableEq, Repr

/-- Goal metadata returned by `createGoal` (goals.ts `interface Goal`).
The `planPath` string of the phase-3 variant, a constant function of the
workspace path and name, is not modelled; no claim mentions it.
-/
structure Goal where
  name : String
  created_at : String
  last_updated : String
  deriving DecidableEq, Repr

/-- One goal directory under `.goals/goals/<name>`: its `plan.md` file
(`none` when the file is absent) and its `learnings` subdirectory
(`none` when the directory is absent; entries are filename-content
pairs). -/
structure GoalDir where
  plan : Option FileData
  learningsDir : Option (List (String × FileData))
  deriving DecidableEq, Repr

/-- The `.goals` hierarchy of one workspace. -/
structure GoalFS where
  goals : List (String × GoalDir)
  learnings : Option (List (String × FileData))
  stateFile : StateFile GoalState
  deriving DecidableEq, Repr

/-- A `GoalManager` instance: its filesystem fragment plus the in-memory
`this.state`. -/
structure GM where
  fs : GoalFS
  state : GoalState
  deriving DecidableEq, Repr

/-- `interface Learning` of goals.ts. -/
structure Learning where
  timestamp : String
  title : String
  context : String
  details : String
  rationale : String
  alternatives : String
  references : String
  deriving DecidableEq, Repr

/-- goals.ts `formatTimestampForFilename`: `timestamp.replace(/[:\.]/g, "_")`
applied characterwise. -/
def encChar (c : Char) : Char :=
  if c = ':' ∨ c = '.' then '_' else c

/-- goals.ts `formatTimestampForFilename`. -/
def formatTimestampForFilename (timestamp : String) : String :=
  ⟨timestamp.data.map encChar⟩

/-- Removal of the first occurrence of the substring `".md"`, i.e. the JS
string-pattern call `filename.replace(".md", "")`. -/
def stripFirstMd : List Char → List Char
  | [] => []
  | c :: rest =>
    if c = '.' ∧ rest.take 2 = ['m', 'd'] then rest.drop 2
    else c :: stripFirstMd rest

/-- The replacement callback of `parseTimestampFromFilename`: an
underscore at offset 13 or 16 becomes `:`, at offset 19 becomes `.`,
anything else is kept. -/
def decChar (i : Nat) (c : Char) : Char :=
  if c = '_' then
    if i = 13 ∨ i = 16 then ':'
    else if i = 19 then '.'
    else '_'
  else c

/-- `s.replace(/_/g, cb)` with offset-aware callback: an indexed map,
valid because each replacement has length one. -/
def restoreFrom (i : Nat) : List Char → List Char
  | [] => []
  | c :: rest => decChar i c :: restoreFrom (i + 1) rest

/-- goals.ts `parseTimestampFromFilename`. -/
def parseTimestampFromFilename (filename : String) : String :=
  ⟨restoreFrom 0 (stripFirstMd filename.data)⟩

/-- goals.ts `formatLearningContent`: the template literal, including the
four-space indentation present inside the backtick string of the source. -/
def formatLearningContent (l : Learning) : String :=
  "## " ++ l.title ++ "\n\n    ### Context\n    " ++ l.context ++
  "\n\n    ### Details\n    " ++ l.details ++
  "\n\n    ### Rationale\n    " ++ l.rationale ++
  "\n\n    ### Alternatives Considered\n    " ++ l.alternatives ++
  "\n\n    ### References\n    " ++ l.references ++ "\n    "

/-! ### The summary extractor

`getGoalDescription` runs `plan.match(/^#\s+(.+?)\n\n(.+?)(?=\n\n|$)/s)`.
The functions below embed that regex's backtracking semantics:
`^` anchors at position 0 (no `m` flag), `\s+` is greedy (longest run
first, backtracking shorter), both `(.+?)` groups are lazy (shortest
first) and dotall (the `s` flag: `.` matches every character including
newlines), and `(?=\n\n|$)` is a zero-width lookahead where `$` (no `m`
flag) matches only at the very end of the string. -/

/-- The JS `\\s` character class, exactly: tab, LF, VT, FF, CR, space,
NBSP, U+1680, the U+2000 to U+200A range, LINE SEPARATOR, PARAGRAPH
SEPARATOR, U+202F, U+205F, U+3000 and U+FEFF. -/
def isJsWs (c : Char) : Bool :=
  c = ' ' ∨ c = '\t' ∨ c = '\n' ∨ c = '\r' ∨ c = '\x0b' ∨ c = '\x0c' ∨
  c = '\u00a0' ∨ c = '\u1680' ∨ ('\u2000' ≤ c ∧ c ≤ '\u200a') ∨
  c = '\u2028' ∨ c = '\u2029' ∨ c = '\u202f' ∨ c = '\u205f' ∨
  c = '\u3000' ∨ c = '\ufeff'

/-- Length of the maximal `\s` run at the head of the list. -/
def wsRun : List Char → Nat
  | [] => 0
  | c :: rest => if isJsWs c then wsRun rest + 1 else 0

/-- Lazy `(.+?)(?=\n\n|$)`: one character, then characters up to (not
including) the first position where `\n\n` follows, or to the end. -/
def descRun : List Char → List Char
  | [] => []
  | c :: rest =>
    if c = '\n' ∧ rest.head? = some '\n' then []
    else c :: descRun rest

/-- The second capture group on the remaining input: fails only on empty
input (the group needs at least one character). -/
def descMatch : List Char → Option (List Char)
  | [] => none
  | c :: rest => some (c :: descRun rest)

/-- After a candidate title, the literal `\n\n` followed by a successful
second group. -/
def splitOk (cs : List Char) : Option (List Char) :=
  if cs.take 2 = ['\n', '\n'] then descMatch (cs.drop 2) else none

/-- Lazy first group `(.+?)\n\n` followed by the rest of the pattern:
candidate titles are tried shortest first. -/
def findTitleSplit : List Char → Option (List Char × List Char)
  | [] => none
  | c :: cs =>
    match splitOk cs with
    | some d => some ([c], d)
    | none =>
      match findTitleSplit cs with
      | some (t, d) => some (c :: t, d)
      | none => none

/-- Greedy `\s+`: widths are tried longest first, down to one. -/
def tryW : Nat → List Char → Option (List Char × List Char)
  | 0, _ => none
  | w + 1, s =>
    match findTitleSplit (s.drop (w + 1)) with
    | some r => some r
    | none => tryW w s

/-- The whole regex: `#` at position 0, greedy whitespace, then the two
captures. Returns `(title, description)`. -/
def extractSummaryL (s : List Char) : Option (List Char × List Char) :=
  match s with
  | [] => none
  | c :: rest => if c = '#' then tryW (wsRun rest) rest else none

/-- getGoalDescription's return value built from the regex captures:
`"{title}\n\n{description}"` (String level). -/
def extractSummary (plan : String) : Option String :=
  match extractSummaryL plan.data with
  | some (t, d) => some ⟨t ++ '\n' :: '\n' :: d⟩
  | none => none

/-! ### GoalManager operations -/

/-- goals.ts `loadState` (identical in both variants): read and parse
`state.json`; on ENOENT write the current default state and keep it; any
other read or parse failure propagates. Returns the new in-memory state
and the resulting on-disk file. -/
def loadState (sf : StateFile GoalState) (cur : GoalState) :
    Except GMError (GoalState × StateFile GoalState) :=
  match sf with
  | .valid st => .ok (st, .valid st)
  | .absent => .ok (cur, .valid cur)
  | .malformed => .error .parseError
  | .unreadable => .error .eacces

/-- goals.ts (phase 3) `createGoal(name, planContent)`: fails when the
goal directory exists; otherwise creates the directory with an empty
`learnings` subdirectory and writes `plan.md`. The source reads the
clock twice for `created_at`/`last_updated`; both are modelled as `now`. -/
def createGoal (gm : GM) (name planContent now : String) :
    Except GMError Goal × GM :=
  if (findEntry gm.fs.goals name).isSome then
    (.error .alreadyExists, gm)
  else
    let dir : GoalDir := { plan := some (.readable planContent), learningsDir := some [] }
    let goal : Goal := { name := name, created_at := now, last_updated := now }
    (.ok goal, { gm with fs := { gm.fs with goals := gm.fs.goals ++ [(name, dir)] } })

/-- goals.ts (phase 3) `getPlan`: absent `plan.md` gives `null`; a read
error on an existing file is caught and also gives `null` (the
`try/catch` of lines 136-140). The operation itself never throws. -/
def getPlan (gm : GM) (name : String) : Except GMError (Option String) :=
  match findEntry gm.fs.goals name with
  | none => .ok none
  | some dir =>
    match dir.plan with
    | none => .ok none
    | some (.readable s) => .ok (some s)
    | some .unreadable => .ok none

/-- goals.ts (phase 3) `getGoalDescription`: `if (!plan) return null`
treats both a `null` and an empty plan as absent, then runs the regex. -/
def getGoalDescription (gm : GM) (name : String) : Except GMError (Option String) :=
  match getPlan gm name with
  | .error e => .error e
  | .ok none => .ok none
  | .ok (some plan) => if plan = "" then .ok none else .ok (extractSummary plan)

/-- goals.ts (phase 3) `setActiveGoal`: throws before any mutation when
the goal directory is missing; otherwise updates the in-memory state and
persists it to `state.json`. -/
def setActiveGoal (gm : GM) (name now : String) : Except GMError Unit × GM :=
  if (findEntry gm.fs.goals name).isNone then
    (.error .notFound, gm)
  else
    let st : GoalState := { active_goal := some name, last_updated := now }
    (.ok (), { fs := { gm.fs with stateFile := .valid st }, state := st })

/-- goals.ts `getActiveGoal`: pure read of the in-memory state. -/
def getActiveGoal (gm : GM) : Option String :=
  gm.state.active_goal

/-- Shared tail of `addLearning`: create the scope directory when absent,
fail when the encoded filename already exists, otherwise write the file. -/
def addToDir (entries : Option (List (String × FileData))) (fname content : String) :
    Except GMError (List (String × FileData)) :=
  let es := entries.getD []
  if (findEntry es fname).isSome then .error .alreadyExists
  else .ok (es ++ [(fname, .readable content)])

/-- goals.ts (phase 2) `addLearning`: goal-scoped calls first check the
goal directory and throw `NotFound` when it is missing; the filename is
the encoded timestamp plus `.md`; an existing file for that timestamp is
`AlreadyExists`. -/
def addLearning (gm : GM) (l : Learning) (goalName : Option String) :
    Except GMError Unit × GM :=
  let fname := formatTimestampForFilename l.timestamp ++ ".md"
  let content := formatLearningContent l
  match goalName with
  | none =>
    match addToDir gm.fs.learnings fname content with
    | .error e => (.error e, gm)
    | .ok es => (.ok (), { gm with fs := { gm.fs with learnings := some es } })
  | some g =>
    match findEntry gm.fs.goals g with
    | none => (.error .notFound, gm)
    | some dir =>
      match addToDir dir.learningsDir fname content with
      | .error e => (.error e, gm)
      | .ok es =>
        (.ok (), { gm with fs := { gm.fs with
          goals := updateEntry gm.fs.goals g { dir with learningsDir := some es } } })

/-- goals.ts (phase 2) `getLearnings`, embedded as written: when the
scope directory is absent it returns `[]`; when the directory exists the
source calls `readFile(learningDir)` on the directory path (line 173) —
not `readdir` — which fails with `EISDIR`, so the filter/decode/sort tail
of the function is unreachable. -/
def getLearnings (gm : GM) (goalName : Option String) :
    Except GMError (List (String × String)) :=
  let dirEntries : Option (List (String × FileData)) :=
    match goalName with
    | some g =>
      match findEntry gm.fs.goals g with
      | none => none
      | some d => d.learningsDir
    | none => gm.fs.learnings
  match dirEntries with
  | none => .ok []
  | some _ => .error .eisdir

/-! ### WorkspaceManager -/

/-- workspace.ts `interface Workspace`. -/
structure Workspace where
  name : String
  path : String
  last_active : String
  deriving DecidableEq, Repr

/-- `workspaces.json` on disk, analogous to `StateFile`. -/
inductive WFile where
  | absent
  | valid (ws : List Workspace)
  | malformed
  | unreadable
  deriving DecidableEq, Repr

/-- A `WorkspaceManager` instance: the in-memory list, the persisted
file, and the transient active workspace.

The `activeWorkspace` field and its updates are
Modelled from the spec: `getActiveWorkspace()` is called by the phase-3
server's create-goal and set-active-goal handlers but its implementation
is absent from the provided workspace.ts; spec section 4.1 describes it as
transient, non-persisted state holding the workspace most recently
touched via `touch`/`create` in this process, or none. -/
structure WM where
  workspaces : List Workspace
  storeFile : WFile
  activeWorkspace : Option Workspace
  deriving DecidableEq, Repr

/-- `new WorkspaceManager(...)` over a given on-disk registry file. -/
def WMnew (sf : WFile) : WM :=
  { workspaces := [], storeFile := sf, activeWorkspace := none }

/-- workspace.ts `loadWorkspaces`: same recovery policy as `loadState`
(a missing file becomes the empty list, which is persisted; malformed or
unreadable files propagate). -/
def loadWorkspaces (sf : WFile) : Except GMError (List Workspace × WFile) :=
  match sf with
  | .valid ws => .ok (ws, .valid ws)
  | .absent => .ok ([], .valid [])
  | .malformed => .error .parseError
  | .unreadable => .error .eacces

/-- workspace.ts `init`: directory bootstrap (no observable effect in
this model) followed by `loadWorkspaces`. -/
def WMinit (wm : WM) : Except GMError WM :=
  match loadWorkspaces wm.storeFile with
  | .ok (ws, sf) => .ok { wm with workspaces := ws, storeFile := sf }
  | .error e => .error e

/-- workspace.ts `getAll`: a copy sorted by `last_active` descending.
The source comparator parses the ISO timestamps with `new Date`; on the
canonical fixed-width UTC form that order is the lexicographic string
order (spec section 4.4), which is how the key is modelled. -/
def getAll (wm : WM) : List Workspace :=
  wm.workspaces.mergeSort (fun a b => decide (b.last_active ≤ a.last_active))

/-- workspace.ts `createWorkspace`: duplicate names (case-sensitive exact
match) throw before any mutation; otherwise the new workspace is appended
and the whole list persisted. Setting `activeWorkspace` is
Modelled from the spec (section 4.1: most recently touched via
`touch`/`create`). -/
def createWorkspace (wm : WM) (name path now : String) :
    Except GMError Workspace × WM :=
  if wm.workspaces.any (fun w => w.name == name) then
    (.error .alreadyExists, wm)
  else
    let w : Workspace := { name := name, path := path, last_active := now }
    (.ok w,
     { workspaces := wm.workspaces ++ [w],
       storeFile := .valid (wm.workspaces ++ [w]),
       activeWorkspace := some w })

/-- Update `last_active` of the first list entry with the given name
(the source mutates the object found by `find` in place). -/
def touchFirst (l : List Workspace) (name now : String) : List Workspace :=
  match l with
  | [] => []
  | w :: rest =>
    if w.name = name then { w with last_active := now } :: rest
    else w :: touchFirst rest name now

/-- workspace.ts `updateLastActive`: `NotFound` when no workspace has the
name; otherwise stamps `last_active`, persists, and returns the updated
workspace. Setting `activeWorkspace` is Modelled from the spec
(section 4.1). -/
def updateLastActive (wm : WM) (name now : String) :
    Except GMError Workspace × WM :=
  match wm.workspaces.find? (fun w => w.name == name) with
  | none => (.error .notFound, wm)
  | some w =>
    let w' : Workspace := { w with last_active := now }
    let ws' := touchFirst wm.workspaces name now
    (.ok w',
     { workspaces := ws', storeFile := .valid ws', activeWorkspace := some w' })

/-- Modelled from the spec: `getActiveWorkspace()` (absent from the
provided workspace.ts; see `WM.activeWorkspace`). Returns the transient
active workspace. -/
def getActiveWorkspace (wm : WM) : Option Workspace :=
  wm.activeWorkspace

/-! ### Helper lemmas -/

theorem findEntry_append_right {α : Type} (l : List (String × α)) (n : String) (v : α)
    (h : findEntry l n = none) : findEntry (l ++ [(n, v)]) n = some v := by
  induction l with
  | nil => simp [findEntry]
  | cons e rest ih =>
    obtain ⟨k, w⟩ := e
    rw [findEntry] at h
    rw [List.cons_append, findEntry]
    by_cases hk : k = n
    · rw [if_pos hk] at h; exact absurd h (by simp)
    · rw [if_neg hk] at h ⊢; exact ih h

/-! ### Concrete stores used by witnesses and counterexamples -/

/-- An initialized, empty goal store. -/
def gmEmpty : GM :=
  { fs := { goals := [], learnings := none, stateFile := .valid ⟨none, "t0"⟩ },
    state := ⟨none, "t0"⟩ }

/-- A store holding one goal `g` with plan `"P"`. -/
def gmOne : GM :=
  { fs := { goals := [("g", { plan := some (.readable "P"), learningsDir := some [] })],
            learnings := none, stateFile := .valid ⟨none, "t0"⟩ },
    state := ⟨none, "t0"⟩ }

/-- A store holding one goal `g` whose `plan.md` exists but cannot be
read (e.g. a permission error). -/
def gmBad : GM :=
  { fs := { goals := [("g", { plan := some .unreadable, learningsDir := some [] })],
            learnings := none, stateFile := .valid ⟨none, "t0"⟩ },
    state := ⟨none, "t0"⟩ }

/-- A store whose workspace-level learnings directory exists and holds
the two encoded learning files of the spec's ordering example. -/
def gmLearnDirs : GM :=
  { fs := { goals := [],
            learnings := some
              [("2024-01-01T00_00_00_000Z.md", .readable "January learning"),
               ("2024-06-01T00_00_00_000Z.md", .readable "June learning")],
            stateFile := .valid ⟨none, "t0"⟩ },
    state := ⟨none, "t0"⟩ }

/-- A store holding one goal `g` whose plan is `"# A\nB\n\nC"`: its first
line is `# A` but the blank line terminating the title capture only comes
after the second line. -/
def gmSummary : GM :=
  { fs := { goals := [("g", { plan := some (.readable "# A\nB\n\nC"), learningsDir := some [] })],
            learnings := none, stateFile := .valid ⟨none, "t0"⟩ },
    state := ⟨none, "t0"⟩ }

/-- A sample learning entry. -/
def learningEx : Learning :=
  ⟨"2024-01-01T00:00:00.000Z", "T", "Ctx", "Det", "Rat", "Alt", "Ref"⟩

/-! ### C1 -/

/-- C1: on a store in which no goal directory named `n` exists,
`createGoal(n, x)` followed by `getPlan(n)` returns exactly `x`, for
every plan string `x` including the empty string. -/
theorem createGoal_getPlan_roundtrip (gm : GM) (n x now : String)
    (h : findEntry gm.fs.goals n = none) :
    getPlan (createGoal gm n x now).2 n = .ok (some x) := by
  simp only [createGoal, h, Option.isSome_none, Bool.false_eq_true, if_false]
  simp only [getPlan, findEntry_append_right gm.fs.goals n _ h]

/-- C1 witness: concretely, creating goal `g` with the plan `"P1"` in the
empty store and reading it back yields `"P1"`. -/
theorem createGoal_getPlan_roundtrip_witness :
    getPlan (createGoal gmEmpty "g" "P1" "t1").2 "g" = .ok (some "P1") :=
  createGoal_getPlan_roundtrip gmEmpty "g" "P1" "t1" (by rfl)

/-! ### C5 -/

/-- C5 counterexample: the claim says a read error in `getPlan` on an
existing goal propagates to the caller as an error; in the code the
`try/catch` of `getPlan` converts it to an absent result. In `gmBad` goal
`g` exists and its `plan.md` is present but unreadable, yet `getPlan`
returns `ok none` — not an error. -/
theorem failure_policy_counterexample :
    gmBad.fs.goals = [("g", { plan := some .unreadable, learningsDir := some [] })]
    ∧ getPlan gmBad "g" = .ok none :=
  ⟨rfl, rfl⟩

/-- C5 amended: during `init`, a missing state file is the only condition
recovered silently (the default state is written and kept); a malformed
or unreadable state file propagates as an error, and the workspace
registry load behaves the same way — but `getPlan` catches read errors on
an existing goal's plan file and returns an absent result instead of
propagating them. -/
theorem failure_policy_amended (cur : GoalState) (gm : GM) (n : String) (d : GoalDir)
    (hg : findEntry gm.fs.goals n = some d) (hp : d.plan = some .unreadable) :
    loadState .absent cur = .ok (cur, .valid cur)
    ∧ loadState .malformed cur = .error .parseError
    ∧ loadState .unreadable cur = .error .eacces
    ∧ loadWorkspaces .malformed = .error .parseError
    ∧ loadWorkspaces .unreadable = .error .eacces
    ∧ getPlan gm n = .ok none := by
  refine ⟨rfl, rfl, rfl, rfl, rfl, ?_⟩
  simp only [getPlan, hg, hp]

/-- C5 amended witness: the amended policy at a concrete store and state. -/
theorem failure_policy_witness :
    loadState .absent ⟨none, "t0"⟩ = .ok (⟨none, "t0"⟩, .valid ⟨none, "t0"⟩)
    ∧ loadState .malformed ⟨none, "t0"⟩ = .error .parseError
    ∧ loadState .unreadable ⟨none, "t0"⟩ = .error .eacces
    ∧ loadWorkspaces .malformed = .error .parseError
    ∧ loadWorkspaces .unreadable = .error .eacces
    ∧ getPlan gmBad "g" = .ok none :=
  failure_policy_amended ⟨none, "t0"⟩ gmBad "g"
    { plan := some .unreadable, learningsDir := some [] } (by rfl) (by rfl)

/-! ### C6 -/

/-- C6: `setActiveGoal(n)` with no goal directory `n` fails with
`NotFound` and leaves the stored active-goal state exactly as it was
(the returned state is the unchanged input state); for an existing goal
directory it sets `active_goal`, stamps `last_updated`, persists the
state, and a subsequent `getActiveGoal()` returns `n`. -/
theorem setActiveGoal_spec (gm : GM) (n now : String) :
    (findEntry gm.fs.goals n = none →
      setActiveGoal gm n now = (.error .notFound, gm))
    ∧ ((findEntry gm.fs.goals n).isSome →
      (setActiveGoal gm n now).1 = .ok ()
      ∧ (setActiveGoal gm n now).2.state = ⟨some n, now⟩
      ∧ (setActiveGoal gm n now).2.fs.stateFile = .valid ⟨some n, now⟩
      ∧ getActiveGoal (setActiveGoal gm n now).2 = some n) := by
  constructor
  · intro h
    simp [setActiveGoal, h]
  · intro h
    have hn : (findEntry gm.fs.goals n).isNone = false := by
      simp [Option.isNone_eq_false_iff, Option.isSome_iff_exists] at h ⊢
      exact h
    simp [setActiveGoal, getActiveGoal, hn]

/-- C6 witness: both branches at concrete stores — a missing goal leaves
`gmEmpty` untouched with a `NotFound` error; activating the existing goal
`g` of `gmOne` makes `getActiveGoal` return `g`. -/
theorem setActiveGoal_spec_witness :
    setActiveGoal gmEmpty "g" "t1" = (.error .notFound, gmEmpty)
    ∧ getActiveGoal (setActiveGoal gmOne "g" "t1").2 = some "g" :=
  ⟨(setActiveGoal_spec gmEmpty "g" "t1").1 (by rfl),
   ((setActiveGoal_spec gmOne "g" "t1").2 (by rfl)).2.2.2⟩

/-! ### C7 -/

/-- C7: `createGoal(n, y)` when a directory for `n` already exists fails
with `AlreadyExists`, returns the store unchanged, and in particular the
existing goal's plan reads the same before and after the failed call. -/
theorem createGoal_duplicate_spec (gm : GM) (n y now : String) (d : GoalDir)
    (h : findEntry gm.fs.goals n = some d) :
    (createGoal gm n y now).1 = .error .alreadyExists
    ∧ (createGoal gm n y now).2 = gm
    ∧ getPlan (createGoal gm n y now).2 n = getPlan gm n := by
  simp [createGoal, h]

/-- C7 witness: re-creating goal `g` of `gmOne` with a different plan
fails and leaves `getPlan` unchanged. -/
theorem createGoal_duplicate_spec_witness :
    (createGoal gmOne "g" "other" "t2").1 = .error .alreadyExists
    ∧ (createGoal gmOne "g" "other" "t2").2 = gmOne
    ∧ getPlan (createGoal gmOne "g" "other" "t2").2 "g" = getPlan gmOne "g" :=
  createGoal_duplicate_spec gmOne "g" "other" "t2"
    { plan := some (.readable "P"), learningsDir := some [] } (by rfl)

/-! ### C10 -/

/-- C10: the two goal-scoped learning operations treat a missing goal
asymmetrically — `getLearnings(g)` on a nonexistent goal returns the
empty collection without an error (its scope-directory existence check
fails, so it returns early), while `addLearning` with the same
nonexistent goal name fails with `NotFound`. -/
theorem learnings_missing_goal_asymmetry (gm : GM) (g : String) (l : Learning)
    (h : findEntry gm.fs.goals g = none) :
    getLearnings gm (some g) = .ok []
    ∧ addLearning gm l (some g) = (.error .notFound, gm) := by
  constructor
  · simp only [getLearnings, h]
  · simp only [addLearning, h]

/-- C10 witness: the asymmetry at the empty store and goal name `g`. -/
theorem learnings_missing_goal_asymmetry_witness :
    getLearnings gmEmpty (some "g") = .ok []
    ∧ addLearning gmEmpty learningEx (some "g") = (.error .notFound, gmEmpty) :=
  learnings_missing_goal_asymmetry gmEmpty "g" learningEx (by rfl)

/-! ### C3 -/

/-- C3: with the workspace-level learnings directory present and holding
the January and June learning files, `getLearnings` does not return the
entries sorted by timestamp descending — it fails with `EISDIR`, because
the source reads the directory itself (`readFile(learningDir)`, goals.ts
line 173) instead of listing it with `readdir`, making the
filter/decode/sort code unreachable. -/
theorem getLearnings_eisdir_bug :
    getLearnings gmLearnDirs none = .error .eisdir := by
  rfl

/-! ### Concrete registries used by witnesses -/

/-- An initialized empty registry. -/
def wmEmpty : WM := { workspaces := [], storeFile := .valid [], activeWorkspace := none }

/-- A registry holding one workspace `w` at path `p`. -/
def wmOne : WM :=
  { workspaces := [⟨"w", "p", "t0"⟩], storeFile := .valid [⟨"w", "p", "t0"⟩],
    activeWorkspace := none }

/-! ### C8 -/

/-- C8: `create(n, p)` fails with the duplicate-name error exactly when a
workspace named `n` (case-sensitive exact match) is already registered,
leaving the registry unchanged — so `list()` still returns exactly as
many entries named `n` as before, in particular exactly one; otherwise it
appends a new workspace with `last_active` set to the current time and
persists the full list. -/
theorem createWorkspace_spec (wm : WM) (n p now : String) :
    (wm.workspaces.any (fun w => w.name == n) = true →
      createWorkspace wm n p now = (.error .alreadyExists, wm)
      ∧ List.countP (fun w => w.name == n) (getAll (createWorkspace wm n p now).2)
          = List.countP (fun w => w.name == n) wm.workspaces)
    ∧ (wm.workspaces.any (fun w => w.name == n) = false →
      (createWorkspace wm n p now).1 = .ok ⟨n, p, now⟩
      ∧ (createWorkspace wm n p now).2.workspaces = wm.workspaces ++ [⟨n, p, now⟩]
      ∧ (createWorkspace wm n p now).2.storeFile = .valid (wm.workspaces ++ [⟨n, p, now⟩])) := by
  constructor
  · intro h
    refine ⟨by simp [createWorkspace, h], ?_⟩
    simp only [createWorkspace, h, if_true]
    exact (List.mergeSort_perm wm.workspaces _).countP_eq _
  · intro h
    simp [createWorkspace, h]

/-- C8 witness: registering `w` again in `wmOne` fails and `list()` keeps
exactly one entry named `w`; registering `w` in the empty registry
appends it and persists the singleton list. -/
theorem createWorkspace_spec_witness :
    (createWorkspace wmOne "w" "q" "t1" = (.error .alreadyExists, wmOne)
      ∧ List.countP (fun w => w.name == "w") (getAll (createWorkspace wmOne "w" "q" "t1").2)
          = List.countP (fun w => w.name == "w") wmOne.workspaces)
    ∧ ((createWorkspace wmEmpty "w" "p" "t0").1 = .ok ⟨"w", "p", "t0"⟩
      ∧ (createWorkspace wmEmpty "w" "p" "t0").2.workspaces = wmEmpty.workspaces ++ [⟨"w", "p", "t0"⟩]
      ∧ (createWorkspace wmEmpty "w" "p" "t0").2.storeFile
          = .valid (wmEmpty.workspaces ++ [⟨"w", "p", "t0"⟩])) :=
  ⟨(createWorkspace_spec wmOne "w" "q" "t1").1 (by rfl),
   (createWorkspace_spec wmEmpty "w" "p" "t0").2 (by rfl)⟩

/-! ### C9 -/

/-- C9: the registry's `getActiveWorkspace()` (Modelled from the spec;
see `WM.activeWorkspace`) returns the workspace most recently activated
via `updateLastActive` or `createWorkspace` in this process, and none
before any workspace has been activated this session: a fresh manager has
no active workspace, `init` does not set one, every successful
create/touch makes its workspace the active one, and failed calls leave
it unchanged. -/
theorem getActiveWorkspace_spec (sf : WFile) (wm wm' : WM) (n p now : String)
    (w : Workspace) (e : GMError) :
    getActiveWorkspace (WMnew sf) = none
    ∧ (WMinit wm = .ok wm' → getActiveWorkspace wm' = getActiveWorkspace wm)
    ∧ ((createWorkspace wm n p now).1 = .ok w →
        getActiveWorkspace (createWorkspace wm n p now).2 = some w)
    ∧ ((createWorkspace wm n p now).1 = .error e →
        getActiveWorkspace (createWorkspace wm n p now).2 = getActiveWorkspace wm)
    ∧ ((updateLastActive wm n now).1 = .ok w →
        getActiveWorkspace (updateLastActive wm n now).2 = some w)
    ∧ ((updateLastActive wm n now).1 = .error e →
        getActiveWorkspace (updateLastActive wm n now).2 = getActiveWorkspace wm) := by
  refine ⟨rfl, ?_, ?_, ?_, ?_, ?_⟩
  · intro h
    cases hsf : loadWorkspaces wm.storeFile with
    | ok v => simp [WMinit, hsf] at h; simp [← h, getActiveWorkspace]
    | error e' => simp [WMinit, hsf] at h
  · intro h
    by_cases hc : wm.workspaces.any (fun v => v.name == n) = true
    · simp [createWorkspace, hc] at h
    · simp only [Bool.not_eq_true] at hc
      simp only [createWorkspace, hc, Bool.false_eq_true, if_false] at h ⊢
      simp only [Except.ok.injEq] at h
      simp [getActiveWorkspace, h]
  · intro h
    by_cases hc : wm.workspaces.any (fun v => v.name == n) = true
    · simp [createWorkspace, hc, getActiveWorkspace]
    · simp only [Bool.not_eq_true] at hc
      simp [createWorkspace, hc] at h
  · intro h
    cases hf : wm.workspaces.find? (fun v => v.name == n) with
    | none => simp [updateLastActive, hf] at h
    | some v =>
      simp only [updateLastActive, hf, Except.ok.injEq] at h ⊢
      simp [getActiveWorkspace, h]
  · intro h
    cases hf : wm.workspaces.find? (fun v => v.name == n) with
    | none => simp [updateLastActive, hf, getActiveWorkspace]
    | some v => simp [updateLastActive, hf] at h

/-- C9 witness: a fresh manager has no active workspace; after
successfully creating `w` in the empty registry it is active; after
touching `w` in `wmOne` the touched copy is active. -/
theorem getActiveWorkspace_spec_witness :
    getActiveWorkspace (WMnew .absent) = none
    ∧ getActiveWorkspace (createWorkspace wmEmpty "w" "p" "t0").2 = some ⟨"w", "p", "t0"⟩
    ∧ getActiveWorkspace (updateLastActive wmOne "w" "t1").2 = some ⟨"w", "p", "t1"⟩ :=
  ⟨(getActiveWorkspace_spec .absent wmEmpty wmEmpty "w" "p" "t0" ⟨"w", "p", "t0"⟩ .notFound).1,
   (getActiveWorkspace_spec .absent wmEmpty wmEmpty "w" "p" "t0" ⟨"w", "p", "t0"⟩
     .notFound).2.2.1 (by rfl),
   (getActiveWorkspace_spec .absent wmOne wmOne "w" "p" "t1" ⟨"w", "p", "t1"⟩
     .notFound).2.2.2.2.1 (by rfl)⟩

/-! ### C4: timestamp filename round-trip -/

theorem digitFacts (c : Char) (h : c.isDigit = true) :
    c ≠ ':' ∧ c ≠ '.' ∧ c ≠ '_' := by
  refine ⟨?_, ?_, ?_⟩ <;> rintro rfl <;> exact absurd h (by decide)

theorem encChar_digit (c : Char) (h : c.isDigit = true) : encChar c = c := by
  obtain ⟨h1, h2, -⟩ := digitFacts c h
  simp [encChar, h1, h2]

theorem stripFirstMd_cons (c : Char) (l : List Char) (h : c ≠ '.') :
    stripFirstMd (c :: l) = c :: stripFirstMd l := by
  rw [stripFirstMd, if_neg]
  rintro ⟨h1, -⟩
  exact h h1

theorem decChar_of_ne (i : Nat) (c : Char) (h : c ≠ '_') : decChar i c = c := by
  simp [decChar, h]

/-- C4: a timestamp in exactly the canonical form `YYYY-MM-DDTHH:mm:ss.sssZ`
(all 17 placeholder positions are decimal digits) is recovered exactly by
decoding the encoded filename: the `_` substitutions at offsets 13, 16
and 19 are the only underscores, and the appended `.md` is the first
occurrence of that substring. -/
theorem timestamp_filename_roundtrip
    (y1 y2 y3 y4 o1 o2 d1 d2 t1 t2 u1 u2 s1 s2 f1 f2 f3 : Char)
    (g1 : y1.isDigit = true) (g2 : y2.isDigit = true) (g3 : y3.isDigit = true)
    (g4 : y4.isDigit = true) (g5 : o1.isDigit = true) (g6 : o2.isDigit = true)
    (g7 : d1.isDigit = true) (g8 : d2.isDigit = true) (g9 : t1.isDigit = true)
    (g10 : t2.isDigit = true) (g11 : u1.isDigit = true) (g12 : u2.isDigit = true)
    (g13 : s1.isDigit = true) (g14 : s2.isDigit = true) (g15 : f1.isDigit = true)
    (g16 : f2.isDigit = true) (g17 : f3.isDigit = true) :
    parseTimestampFromFilename (formatTimestampForFilename
      ⟨[y1, y2, y3, y4, '-', o1, o2, '-', d1, d2, 'T', t1, t2, ':', u1, u2, ':',
        s1, s2, '.', f1, f2, f3, 'Z']⟩ ++ ".md")
    = ⟨[y1, y2, y3, y4, '-', o1, o2, '-', d1, d2, 'T', t1, t2, ':', u1, u2, ':',
        s1, s2, '.', f1, f2, f3, 'Z']⟩ := by
  have hmd : (".md" : String).data = ['.', 'm', 'd'] := rfl
  have app : ∀ (a b : List Char), (String.mk a ++ String.mk b : String) = ⟨a ++ b⟩ :=
    fun a b => rfl
  have strip1 : ∀ (c : Char) (l : List Char), c.isDigit = true →
      stripFirstMd (c :: l) = c :: stripFirstMd l :=
    fun c l hc => stripFirstMd_cons c l (digitFacts c hc).2.1
  have sD : ∀ l, stripFirstMd ('-' :: l) = '-' :: stripFirstMd l :=
    fun l => stripFirstMd_cons _ l (by decide)
  have sT : ∀ l, stripFirstMd ('T' :: l) = 'T' :: stripFirstMd l :=
    fun l => stripFirstMd_cons _ l (by decide)
  have sU : ∀ l, stripFirstMd ('_' :: l) = '_' :: stripFirstMd l :=
    fun l => stripFirstMd_cons _ l (by decide)
  have sZ : ∀ l, stripFirstMd ('Z' :: l) = 'Z' :: stripFirstMd l :=
    fun l => stripFirstMd_cons _ l (by decide)
  have sEnd : stripFirstMd ['.', 'm', 'd'] = [] := by decide
  have dg : ∀ (i : Nat) (c : Char), c.isDigit = true → decChar i c = c :=
    fun i c hc => decChar_of_ne i c (digitFacts c hc).2.2
  have dD : ∀ i, decChar i '-' = '-' := fun i => decChar_of_ne i _ (by decide)
  have dT : ∀ i, decChar i 'T' = 'T' := fun i => decChar_of_ne i _ (by decide)
  have dZ : ∀ i, decChar i 'Z' = 'Z' := fun i => decChar_of_ne i _ (by decide)
  simp only [formatTimestampForFilename, List.map_cons, List.map_nil,
    encChar_digit _ g1, encChar_digit _ g2, encChar_digit _ g3, encChar_digit _ g4,
    encChar_digit _ g5, encChar_digit _ g6, encChar_digit _ g7, encChar_digit _ g8,
    encChar_digit _ g9, encChar_digit _ g10, encChar_digit _ g11, encChar_digit _ g12,
    encChar_digit _ g13, encChar_digit _ g14, encChar_digit _ g15, encChar_digit _ g16,
    encChar_digit _ g17]
  have encD : encChar '-' = '-' := by decide
  have encT : encChar 'T' = 'T' := by decide
  have encC : encChar ':' = '_' := by decide
  have encP : encChar '.' = '_' := by decide
  have encZ : encChar 'Z' = 'Z' := by decide
  simp only [encD, encT, encC, encP, encZ, app, List.cons_append, List.nil_append]
  simp only [parseTimestampFromFilename, hmd]
  simp only [strip1 _ _ g1, strip1 _ _ g2, strip1 _ _ g3, strip1 _ _ g4,
    strip1 _ _ g5, strip1 _ _ g6, strip1 _ _ g7, strip1 _ _ g8, strip1 _ _ g9,
    strip1 _ _ g10, strip1 _ _ g11, strip1 _ _ g12, strip1 _ _ g13, strip1 _ _ g14,
    strip1 _ _ g15, strip1 _ _ g16, strip1 _ _ g17, sD, sT, sU, sZ, sEnd]
  simp only [restoreFrom, dg _ _ g1, dg _ _ g2, dg _ _ g3, dg _ _ g4, dg _ _ g5,
    dg _ _ g6, dg _ _ g7, dg _ _ g8, dg _ _ g9, dg _ _ g10, dg _ _ g11, dg _ _ g12,
    dg _ _ g13, dg _ _ g14, dg _ _ g15, dg _ _ g16, dg _ _ g17, dD, dT, dZ]
  norm_num [decChar]

/-- C4 witness: the round-trip at the concrete timestamp
`2024-01-01T00:00:00.000Z`. -/
theorem timestamp_filename_roundtrip_witness :
    parseTimestampFromFilename (formatTimestampForFilename
      ⟨['2', '0', '2', '4', '-', '0', '1', '-', '0', '1', 'T', '0', '0', ':', '0', '0', ':',
        '0', '0', '.', '0', '0', '0', 'Z']⟩ ++ ".md")
    = ⟨['2', '0', '2', '4', '-', '0', '1', '-', '0', '1', 'T', '0', '0', ':', '0', '0', ':',
        '0', '0', '.', '0', '0', '0', 'Z']⟩ :=
  timestamp_filename_roundtrip '2' '0' '2' '4' '0' '1' '0' '1' '0' '0' '0' '0' '0' '0' '0' '0' '0'
    (by decide) (by decide) (by decide) (by decide) (by decide) (by decide) (by decide)
    (by decide) (by decide) (by decide) (by decide) (by decide) (by decide) (by decide)
    (by decide) (by decide) (by decide)

/-! ### C2: the summary extractor on well-shaped plans -/

/-- `true` iff the list contains no two consecutive newlines (no `\n\n`
occurrence). -/
def noBlank : List Char → Bool
  | [] => true
  | c :: rest => if c = '\n' ∧ rest.head? = some '\n' then false else noBlank rest

theorem noBlank_cons (c : Char) (l : List Char) (h : noBlank (c :: l) = true) :
    noBlank l = true := by
  rw [noBlank] at h
  by_cases hc : c = '\n' ∧ l.head? = some '\n'
  · rw [if_pos hc] at h; exact absurd h (by decide)
  · rwa [if_neg hc] at h

theorem noBlank_head (c : Char) (l : List Char) (h : noBlank (c :: l) = true) :
    ¬(c = '\n' ∧ l.head? = some '\n') := by
  intro hc
  rw [noBlank, if_pos hc] at h
  exact absurd h (by decide)

theorem descRun_append (l : List Char) :
    ∀ r : List Char, noBlank l = true →
      (l.getLast? = some '\n' → r.head? ≠ some '\n') →
      (r = [] ∨ ∃ r', r = '\n' :: '\n' :: r') →
      descRun (l ++ r) = l := by
  induction l with
  | nil =>
    intro r _ _ hr
    rcases hr with rfl | ⟨r', rfl⟩
    · rfl
    · rw [List.nil_append, descRun, if_pos ⟨rfl, rfl⟩]
  | cons c l ih =>
    intro r hl hjunc hr
    have hcond : ¬(c = '\n' ∧ (l ++ r).head? = some '\n') := by
      rintro ⟨rfl, hhead⟩
      cases l with
      | nil =>
        rw [List.nil_append] at hhead
        exact hjunc (by simp) hhead
      | cons x xs =>
        have hx : x = '\n' := by simpa using hhead
        subst hx
        exact noBlank_head _ _ hl ⟨rfl, rfl⟩
    rw [List.cons_append, descRun, if_neg hcond]
    congr 1
    refine ih r (noBlank_cons _ _ hl) ?_ hr
    intro hlast
    apply hjunc
    cases l with
    | nil => simp at hlast
    | cons x xs => rw [List.getLast?_cons_cons]; exact hlast

theorem descMatch_append (d r : List Char) (hd : d ≠ []) (hnb : noBlank d = true)
    (hjunc : d.getLast? = some '\n' → r.head? ≠ some '\n')
    (hr : r = [] ∨ ∃ r', r = '\n' :: '\n' :: r') :
    descMatch (d ++ r) = some d := by
  cases d with
  | nil => exact absurd rfl hd
  | cons c d0 =>
    have h1 : d0.getLast? = some '\n' → r.head? ≠ some '\n' := by
      intro hlast
      apply hjunc
      cases d0 with
      | nil => simp at hlast
      | cons x xs => rw [List.getLast?_cons_cons]; exact hlast
    rw [List.cons_append, descMatch, descRun_append d0 r (noBlank_cons _ _ hnb) h1 hr]

theorem splitOk_nn (cs : List Char) : splitOk ('\n' :: '\n' :: cs) = descMatch cs := by
  simp [splitOk]

theorem findTitleSplit_append (t : List Char) :
    ∀ rest d : List Char, t ≠ [] → noBlank t = true → t.getLast? ≠ some '\n' →
      descMatch rest = some d →
      findTitleSplit (t ++ '\n' :: '\n' :: rest) = some (t, d) := by
  induction t with
  | nil => intro rest d ht _ _ _; exact absurd rfl ht
  | cons c t' ih =>
    intro rest d _ hnb hlast hdm
    cases t' with
    | nil =>
      rw [List.cons_append, List.nil_append, findTitleSplit, splitOk_nn, hdm]
    | cons x t'' =>
      have hso : splitOk ((x :: t'') ++ '\n' :: '\n' :: rest) = none := by
        rw [splitOk, if_neg]
        intro htake
        rw [List.cons_append, List.take_succ_cons] at htake
        have hx : x = '\n' := by
          have := congrArg List.head? htake
          simpa using this
        subst hx
        have h1 : (t'' ++ '\n' :: '\n' :: rest).take 1 = ['\n'] := by
          have := congrArg List.tail htake
          simpa using this
        cases t'' with
        | nil =>
          apply hlast
          rw [List.getLast?_cons_cons]
          simp
        | cons y t3 =>
          rw [List.cons_append, List.take_succ_cons, List.take_zero] at h1
          have hy : y = '\n' := by simpa using h1
          subst hy
          exact noBlank_head _ _ (noBlank_cons _ _ hnb) ⟨rfl, rfl⟩
      have hnb' : noBlank (x :: t'') = true := noBlank_cons _ _ hnb
      have hlast' : (x :: t'').getLast? ≠ some '\n' := by
        rw [← List.getLast?_cons_cons (a := c)]
        exact hlast
      have hrec := ih rest d (by simp) hnb' hlast' hdm
      rw [List.cons_append, findTitleSplit, hso, hrec]

theorem noBlank_drop (n : Nat) : ∀ l : List Char,
    noBlank l = true → noBlank (l.drop n) = true := by
  induction n with
  | zero => intro l h; rwa [List.drop_zero]
  | succ n ih =>
    intro l h
    cases l with
    | nil => rw [List.drop_nil]; rfl
    | cons c rest => rw [List.drop_succ_cons]; exact ih rest (noBlank_cons _ _ h)

theorem splitOk_of_noBlank (cs : List Char) (h : noBlank cs = true) :
    splitOk cs = none := by
  cases cs with
  | nil => rfl
  | cons c cs' =>
    cases cs' with
    | nil =>
      rw [splitOk, if_neg]
      intro hcc
      rw [List.take_succ_cons, List.take_nil] at hcc
      have hlen := congrArg List.length hcc
      simp at hlen
    | cons c' cs'' =>
      rw [splitOk, if_neg]
      intro hcc
      rw [List.take_succ_cons, List.take_succ_cons, List.take_zero] at hcc
      have hc : c = '\n' := by
        have hh := congrArg List.head? hcc
        simpa using hh
      have hc' : c' = '\n' := by
        have hh := congrArg (fun l => List.head? (List.tail l)) hcc
        simpa using hh
      subst hc; subst hc'
      exact noBlank_head _ _ h ⟨rfl, rfl⟩

theorem findTitleSplit_of_noBlank : ∀ l : List Char,
    noBlank l = true → findTitleSplit l = none := by
  intro l
  induction l with
  | nil => intro _; rfl
  | cons c cs ih =>
    intro h
    rw [findTitleSplit, splitOk_of_noBlank cs (noBlank_cons _ _ h),
      ih (noBlank_cons _ _ h)]

theorem tryW_none (w : Nat) : ∀ s : List Char,
    (∀ k, findTitleSplit (s.drop k) = none) → tryW w s = none := by
  induction w with
  | zero => intro s _; rfl
  | succ w ih =>
    intro s h
    rw [tryW, h (w + 1), ih s h]

/-- A blank line only at the very end gives the candidate description an
empty remainder, so every candidate split fails. -/
theorem findTitleSplit_terminal : ∀ t : List Char,
    noBlank (t ++ ['\n']) = true →
    findTitleSplit (t ++ ['\n', '\n']) = none := by
  intro t
  induction t with
  | nil => intro _; decide
  | cons c t' ih =>
    intro h
    have h' : noBlank (t' ++ ['\n']) = true := noBlank_cons _ _ h
    have hso : splitOk (t' ++ ['\n', '\n']) = none := by
      cases t' with
      | nil => decide
      | cons x t'' =>
        rw [List.cons_append, splitOk, if_neg]
        intro htake
        rw [List.take_succ_cons] at htake
        have hx : x = '\n' := by
          have hh := congrArg List.head? htake
          simpa using hh
        subst hx
        have h1 := congrArg List.tail htake
        simp only [List.tail_cons] at h1
        cases t'' with
        | nil => exact absurd h' (by decide)
        | cons y t3 =>
          rw [List.cons_append, List.take_succ_cons, List.take_zero] at h1
          have hy : y = '\n' := by simpa using h1
          subst hy
          exact noBlank_head _ _ h' ⟨rfl, rfl⟩
    rw [List.cons_append, findTitleSplit, hso, ih h']

theorem findTitleSplit_drop_terminal (k : Nat) : ∀ u : List Char,
    noBlank (u ++ ['\n']) = true →
    findTitleSplit ((u ++ ['\n', '\n']).drop k) = none := by
  induction k with
  | zero =>
    intro u hu
    rw [List.drop_zero]
    exact findTitleSplit_terminal u hu
  | succ k ih =>
    intro u hu
    cases u with
    | nil =>
      rw [List.nil_append, List.drop_succ_cons]
      cases k with
      | zero => decide
      | succ k' =>
        rw [List.drop_succ_cons, List.drop_nil]
        rfl
    | cons c u' =>
      rw [List.cons_append, List.drop_succ_cons]
      exact ih u' (noBlank_cons _ _ hu)

theorem wsRun_append (ws : List Char) : ∀ (c0 : Char) (X : List Char),
    ws.all isJsWs = true → isJsWs c0 = false →
    wsRun (ws ++ c0 :: X) = ws.length := by
  induction ws with
  | nil =>
    intro c0 X _ hc
    rw [List.nil_append, wsRun, if_neg (by simp [hc])]
    rfl
  | cons w0 ws' ih =>
    intro c0 X hall hc
    rw [List.all_cons, Bool.and_eq_true] at hall
    rw [List.cons_append, wsRun, if_pos hall.1, ih c0 X hall.2 hc, List.length_cons]

/-- C2 amended: the extractor returns `(title, description)` where title
is the shortest nonempty run of text after the leading `#` and a maximal
nonempty run of `\s` whitespace that is terminated by a blank line (the
title may span several lines; here it starts with a non-whitespace
character, contains no blank line and does not end in a newline), and
description is the following nonempty run up to the next blank line or
end of input; and the extractor returns absent on empty content, content
not starting with `#`, `#` not followed by whitespace, content with no
blank line after the marker, and content whose only blank line is
terminal with nothing after it. -/
theorem summary_extractor_amended (ws : List Char) (c0 : Char) (t0 d r : List Char)
    (hwsne : ws ≠ []) (hwsall : ws.all isJsWs = true)
    (hws : isJsWs c0 = false)
    (hnb : noBlank (c0 :: t0) = true)
    (hlast : (c0 :: t0).getLast? ≠ some '\n')
    (hd : d ≠ []) (hnbd : noBlank d = true)
    (hjunc : d.getLast? = some '\n' → r.head? ≠ some '\n')
    (hr : r = [] ∨ ∃ r', r = '\n' :: '\n' :: r') :
    extractSummaryL ('#' :: (ws ++ ((c0 :: t0) ++ '\n' :: '\n' :: (d ++ r))))
      = some (c0 :: t0, d)
    ∧ extractSummaryL [] = none
    ∧ (∀ (c : Char) (rest : List Char), c ≠ '#' → extractSummaryL (c :: rest) = none)
    ∧ (∀ (c : Char) (rest : List Char), isJsWs c = false →
        extractSummaryL ('#' :: c :: rest) = none)
    ∧ extractSummaryL ['#'] = none
    ∧ (∀ rest : List Char, noBlank rest = true → extractSummaryL ('#' :: rest) = none)
    ∧ (∀ u : List Char, noBlank (u ++ ['\n']) = true →
        extractSummaryL ('#' :: (u ++ ['\n', '\n'])) = none) := by
  refine ⟨?_, rfl, ?_, ?_, by decide, ?_, ?_⟩
  · have hdm : descMatch (d ++ r) = some d := descMatch_append d r hd hnbd hjunc hr
    have hsplit := findTitleSplit_append (c0 :: t0) (d ++ r) d (by simp) hnb hlast hdm
    rw [extractSummaryL, if_pos rfl, List.cons_append]
    rw [wsRun_append ws c0 _ hwsall hws]
    cases ws with
    | nil => exact absurd rfl hwsne
    | cons w0 ws' =>
      rw [List.length_cons, tryW, List.cons_append, List.drop_succ_cons,
        List.drop_left]
      rw [List.cons_append] at hsplit
      rw [hsplit]
  · intro c rest hc
    rw [extractSummaryL, if_neg hc]
  · intro c rest hc
    rw [extractSummaryL, if_pos rfl, wsRun, if_neg (by simp [hc])]
    rfl
  · intro rest h
    rw [extractSummaryL, if_pos rfl]
    exact tryW_none _ _ (fun k => findTitleSplit_of_noBlank _ (noBlank_drop k rest h))
  · intro u hu
    rw [extractSummaryL, if_pos rfl]
    exact tryW_none _ _ (fun k => findTitleSplit_drop_terminal k u hu)

/-- C2 amended witness: the spec's example plan
`"# Title\n\nBody line.\n\n## Details\nMore."` yields title `Title` and
description `Body line.`, and a plan with no leading heading marker
yields an absent description. -/
theorem summary_extractor_amended_witness :
    extractSummaryL
      ['#', ' ', 'T', 'i', 't', 'l', 'e', '\n', '\n', 'B', 'o', 'd', 'y', ' ',
       'l', 'i', 'n', 'e', '.', '\n', '\n', '#', '#', ' ', 'D', 'e', 't', 'a',
       'i', 'l', 's', '\n', 'M', 'o', 'r', 'e', '.']
      = some (['T', 'i', 't', 'l', 'e'], ['B', 'o', 'd', 'y', ' ', 'l', 'i', 'n', 'e', '.'])
    ∧ extractSummaryL ['N', 'o', ' ', 'h', 'e', 'a', 'd', 'i', 'n', 'g'] = none :=
  ⟨(summary_extractor_amended [' '] 'T' ['i', 't', 'l', 'e']
      ['B', 'o', 'd', 'y', ' ', 'l', 'i', 'n', 'e', '.']
      ['\n', '\n', '#', '#', ' ', 'D', 'e', 't', 'a', 'i', 'l', 's', '\n', 'M', 'o', 'r', 'e', '.']
      (by decide) (by decide) (by decide) (by decide) (by decide) (by decide)
      (by decide) (by decide)
      (Or.inr ⟨['#', '#', ' ', 'D', 'e', 't', 'a', 'i', 'l', 's', '\n', 'M', 'o', 'r', 'e', '.'],
        rfl⟩)).1,
   (summary_extractor_amended [' '] 'T' ['i', 't', 'l', 'e']
      ['B', 'o', 'd', 'y', ' ', 'l', 'i', 'n', 'e', '.']
      ['\n', '\n', '#', '#', ' ', 'D', 'e', 't', 'a', 'i', 'l', 's', '\n', 'M', 'o', 'r', 'e', '.']
      (by decide) (by decide) (by decide) (by decide) (by decide) (by decide)
      (by decide) (by decide)
      (Or.inr ⟨['#', '#', ' ', 'D', 'e', 't', 'a', 'i', 'l', 's', '\n', 'M', 'o', 'r', 'e', '.'],
        rfl⟩)).2.2.1 'N' ['o', ' ', 'h', 'e', 'a', 'd', 'i', 'n', 'g'] (by decide)⟩

/-- C2 counterexample: the claim says the title is the text of the first
line beginning with `# `, so the plan `"# A\nB\n\nC"` would have to yield
`"A\n\nB"` (title `A`, description `B`, the run following that line up to
the blank line); the code's dotall lazy title capture runs to the first
blank line instead, and `getGoalDescription` returns `"A\nB\n\nC"`. -/
theorem summary_extractor_counterexample :
    getGoalDescription gmSummary "g" = .ok (some "A\nB\n\nC")
    ∧ ("A\nB\n\nC" : String) ≠ "A\n\nB" := by
  refine ⟨rfl, by decide⟩
